import Mathlib

/-!
Verification of the render-pipeline specialization compiler
(crates/bevy_render/src/pipeline/pipeline_compiler.rs).

The Rust code is embedded shallowly: the mutable state threaded through
the compiler (the two memoization caches, the two asset stores, the
per-frame assignment table, and a log of invocations of the external
shader-compilation service) is collected in one record `CompilerState`,
and each Rust function becomes a Lean function on that record.  Rust
`HashMap`s become association lists; Rust panics (`unwrap`) become
`Option` failure.  Collaborator types that live outside the repository
(asset storage, shaders, render resources, renderables) are modelled
from the specification and marked as such in their doc comments.
-/

/-! ## Association lists (model of HashMap) -/

/-- Lookup in an association list; models `HashMap::get`. -/
def assocFind {κ α : Type} [DecidableEq κ] : List (κ × α) → κ → Option α
  | [], _ => none
  | e :: t, k => if e.1 = k then some e.2 else assocFind t k

/-- Insert or replace in an association list; models `HashMap::insert`. -/
def assocInsert {κ α : Type} [DecidableEq κ] : List (κ × α) → κ → α → List (κ × α)
  | [], k, v => [(k, v)]
  | e :: t, k, v => if e.1 = k then (k, v) :: t else e :: assocInsert t k v

/-! ## Specializations (pipeline_compiler.rs lines 18-27) -/

/-- Rust `PrimitiveTopology` (state_descriptors); the variants do not matter
for the compiler, only decidable equality does. -/
inductive PrimitiveTopology : Type
  | PointList
  | LineList
  | LineStrip
  | TriangleList
  | TriangleStrip
  deriving DecidableEq, Repr

/-- Rust `ShaderSpecialization { shader_defs: HashSet<String> }`.  The hash
set is modelled by the list of its elements in internal iteration order;
set equality (the meaning of `==` on `HashSet`) is `ShaderSpecialization.eqv`
below. -/
structure ShaderSpecialization : Type where
  shader_defs : List String
  deriving DecidableEq, Repr

/-- Equality of `ShaderSpecialization` as Rust `==` computes it: equality
of the underlying define sets. -/
def ShaderSpecialization.eqv (a b : ShaderSpecialization) : Bool :=
  a.shader_defs.all (fun x => b.shader_defs.contains x) &&
    b.shader_defs.all (fun x => a.shader_defs.contains x)

/-- Rust `PipelineSpecialization { shader_specialization, primitive_topology }`. -/
structure PipelineSpecialization : Type where
  shader_specialization : ShaderSpecialization
  primitive_topology : PrimitiveTopology
  deriving DecidableEq, Repr

/-- Structural equality of `PipelineSpecialization` as Rust `==` computes it. -/
def PipelineSpecialization.eqv (a b : PipelineSpecialization) : Bool :=
  a.shader_specialization.eqv b.shader_specialization &&
    a.primitive_topology == b.primitive_topology

/-! ## Binding layouts

`BindType`, `Binding`, `BindGroup`, `PipelineLayout` live in the
`bevy_render::pipeline` module outside the packaged sources; they are
modelled from the spec (sections 3 and 4.2).  The `if let
BindType::Uniform` guard at pipeline_compiler.rs line 84 shows that
`BindType` has non-uniform variants carrying no dynamic flag; `Sampler`
stands for those. -/

/-- Modelled from the spec: the type of a resource binding.  Only the
uniform variant carries the per-draw `dynamic` flag that the compiler
may rewrite (pipeline_compiler.rs lines 84-89); `Sampler` represents the
remaining variants, which carry no such flag. -/
inductive BindType : Type
  | Uniform (dynamic : Bool)
  | Sampler
  deriving DecidableEq, Repr

/-- Modelled from the spec: one named binding of a bind group. -/
structure Binding : Type where
  name : String
  bind_type : BindType
  deriving DecidableEq, Repr

/-- Modelled from the spec: a bind group of the reflected layout. -/
structure BindGroup : Type where
  index : Nat
  bindings : List Binding
  deriving DecidableEq, Repr

/-- Modelled from the spec: a vertex-buffer descriptor entry; the
compiler only copies these from the externally supplied table, so only
a name and an opaque payload are modelled. -/
structure VertexBufferDescriptor : Type where
  name : String
  stride : Nat
  deriving DecidableEq, Repr

/-- Modelled from the spec: the externally supplied vertex-buffer
descriptor table. -/
structure VertexBufferDescriptors : Type where
  descriptors : List VertexBufferDescriptor
  deriving DecidableEq, Repr

/-- Modelled from the spec: the binding layout reflected from one
compiled shader binary. -/
structure ShaderLayout : Type where
  bind_groups : List BindGroup
  vertex_buffer_descriptors : List VertexBufferDescriptor
  deriving DecidableEq, Repr

/-- Modelled from the spec: the merged pipeline layout. -/
structure PipelineLayout : Type where
  bind_groups : List BindGroup
  vertex_buffer_descriptors : List VertexBufferDescriptor
  deriving DecidableEq, Repr

/-- Modelled from the spec: merge one binding into a binding list —
a binding present in both stages is merged, not duplicated (union by
binding name). -/
def mergeBinding (bs : List Binding) (b : Binding) : List Binding :=
  if bs.any (fun b0 => b0.name == b.name) then bs else bs ++ [b]

/-- Modelled from the spec: merge one bind group into a bind-group list,
by group index. -/
def mergeBindGroup (gs : List BindGroup) (g : BindGroup) : List BindGroup :=
  match gs with
  | [] => [g]
  | g0 :: t =>
    if g0.index = g.index then
      { g0 with bindings := g.bindings.foldl mergeBinding g0.bindings } :: t
    else
      g0 :: mergeBindGroup t g

/-- Modelled from the spec: `PipelineLayout::from_shader_layouts` — the
union of the stage layouts' bind groups and of their vertex-buffer
descriptors. -/
def PipelineLayout.from_shader_layouts (layouts : List ShaderLayout) : PipelineLayout :=
  let groups := (layouts.map ShaderLayout.bind_groups).foldl
    (fun acc gs => gs.foldl mergeBindGroup acc) []
  let vbds := (layouts.map ShaderLayout.vertex_buffer_descriptors).flatten
  { bind_groups := groups, vertex_buffer_descriptors := vbds }

/-- Modelled from the spec: `sync_vertex_buffer_descriptors` — attribute
layout data comes from the externally supplied descriptor table when a
descriptor of the same name is present there. -/
def PipelineLayout.sync_vertex_buffer_descriptors
    (l : PipelineLayout) (t : VertexBufferDescriptors) : PipelineLayout :=
  let sync := fun (v : VertexBufferDescriptor) =>
    match t.descriptors.find? (fun d => d.name == v.name) with
    | some d => d
    | none => v
  { l with vertex_buffer_descriptors := l.vertex_buffer_descriptors.map sync }

/-! ## Shaders and the external services (modelled from the spec) -/

/-- Modelled from the spec: a shader source.  The compiled SPIR-V binary
is opaque to the compiler; its only observation in this code is the
binding layout the external reflector returns for it, so the binary is
represented by that layout. -/
inductive ShaderSource : Type
  | Spirv (layout : ShaderLayout)
  | Glsl (source : String)
  deriving DecidableEq, Repr

/-- Modelled from the spec: a shader asset. -/
structure Shader : Type where
  source : ShaderSource
  deriving DecidableEq, Repr

/-- Modelled from the spec: the external layout reflector,
`reflect(compiledBinary) -> BindingLayout | fails(ReflectionError)`;
a source that is not a compiled binary cannot be reflected. -/
def Shader.reflect_layout (s : Shader) : Option ShaderLayout :=
  match s.source with
  | ShaderSource.Spirv l => some l
  | ShaderSource.Glsl _ => none

/-- Modelled from the spec: the external shader compilation service,
`compileWithDefines(sourceShader, orderedDefineList) -> compiledBinary`.
The produced binary is opaque; it is represented by an empty reflected
layout. -/
def Shader.get_spirv_shader (_s : Shader) (_shader_defs : List String) : Shader :=
  { source := ShaderSource.Spirv { bind_groups := [], vertex_buffer_descriptors := [] } }

/-! ## Asset storage (modelled from the spec) -/

/-- Modelled from the spec: the asset store,
`get(handle) -> value | fails(NotFound)` and `add(value) -> handle`
with `add` returning a fresh, stable identifier.  Handles are numbered
by a counter. -/
structure AssetStorage (α : Type) : Type where
  assets : List (Nat × α)
  next_handle : Nat
  deriving Repr

/-- Modelled from the spec: asset lookup. -/
def AssetStorage.get {α : Type} (s : AssetStorage α) (handle : Nat) : Option α :=
  assocFind s.assets handle

/-- Modelled from the spec: asset insertion under a fresh handle. -/
def AssetStorage.add {α : Type} (s : AssetStorage α) (a : α) : AssetStorage α × Nat :=
  ({ assets := s.assets ++ [(s.next_handle, a)], next_handle := s.next_handle + 1 },
    s.next_handle)

/-! ## Render resources (modelled from the spec) -/

/-- Modelled from the spec: buffer metadata; only the dynamic flag is
observed by the compiler. -/
structure BufferInfo : Type where
  is_dynamic : Bool
  deriving DecidableEq, Repr

/-- Modelled from the spec: metadata of a live render resource. -/
inductive ResourceInfo : Type
  | Buffer (info : BufferInfo)
  | Texture
  deriving DecidableEq, Repr

/-- Modelled from the spec: the live resource registry
(`RenderResourceContext::get_resource_info`), a finite map from resource
identifiers to their metadata. -/
structure RenderResourceContext : Type where
  resources : List (Nat × ResourceInfo)
  deriving Repr

/-- Modelled from the spec: `describe(resource) -> ResourceInfo | None`. -/
def RenderResourceContext.get_resource_info
    (ctx : RenderResourceContext) (resource : Nat) : Option ResourceInfo :=
  assocFind ctx.resources resource

/-- Modelled from the spec: a draw resource set
(`RenderResourceAssignments`): named resource bindings, the draw call's
`PipelineSpecialization`, and a stable identifier. -/
structure RenderResourceAssignments : Type where
  bindings : List (String × Nat)
  pipeline_specialization : PipelineSpecialization
  id : Nat
  deriving Repr

/-- Modelled from the spec: lookup of the resource bound under a name. -/
def RenderResourceAssignments.get
    (rra : RenderResourceAssignments) (name : String) : Option Nat :=
  assocFind rra.bindings name

/-- Modelled from the spec: a renderable entity as the frame driver sees
it — an instancing flag, the listed source pipelines and the draw
resource set. -/
structure Renderable : Type where
  is_instanced : Bool
  pipelines : List Nat
  render_resource_assignments : RenderResourceAssignments
  deriving Repr

/-! ## Pipeline descriptors -/

/-- Rust `ShaderStages { vertex, fragment }` (handles into the shader
store). -/
structure ShaderStages : Type where
  vertex : Nat
  fragment : Option Nat
  deriving DecidableEq, Repr

/-- Rust `PipelineLayoutType`: a layout is either given manually or
reflected (and possibly not yet computed). -/
inductive PipelineLayoutType : Type
  | Manual (layout : PipelineLayout)
  | Reflected (layout : Option PipelineLayout)
  deriving DecidableEq, Repr

/-- The pipeline descriptor, with the fields the compiler reads or
overrides (shader stages, layout, primitive topology). -/
structure PipelineDescriptor : Type where
  shader_stages : ShaderStages
  layout : PipelineLayoutType
  primitive_topology : PrimitiveTopology
  deriving DecidableEq, Repr

/-! ## The compiler state -/

/-- The mutable state threaded through the compiler: the two memoization
caches of `PipelineCompiler` (pipeline_compiler.rs lines 30-37), the two
asset stores, the per-frame assignment table (`PipelineAssignments`,
lines 271-273), and a log recording, for each invocation of the external
shader-compilation service, the ordered define list passed to it (the
call-count probe of spec section 8). -/
structure CompilerState : Type where
  shader_source_to_compiled : List (Nat × List (ShaderSpecialization × Nat))
  pipeline_source_to_compiled : List (Nat × List (PipelineSpecialization × Nat))
  shader_storage : AssetStorage Shader
  pipeline_storage : AssetStorage PipelineDescriptor
  assignments : List (Nat × List Nat)
  compile_log : List (List String)
  deriving Repr

/-- The cache-entry list of a source shader (empty when the key is
absent, as after `entry(..).or_insert_with(Vec::new)`). -/
def shaderCacheOf (st : CompilerState) (h : Nat) : List (ShaderSpecialization × Nat) :=
  (assocFind st.shader_source_to_compiled h).getD []

/-- The cache-entry list of a source pipeline (empty when the key is
absent). -/
def pipelineCacheOf (st : CompilerState) (h : Nat) : List (PipelineSpecialization × Nat) :=
  (assocFind st.pipeline_source_to_compiled h).getD []

/-- The linear scan `.iter().find(..)` over a shader cache-entry list
(pipeline_compiler.rs lines 118-123): first entry whose stored
specialization equals the requested one by value. -/
def findCompiledShader :
    List (ShaderSpecialization × Nat) → ShaderSpecialization →
      Option (ShaderSpecialization × Nat)
  | [], _ => none
  | e :: t, spec => if e.1.eqv spec then some e else findCompiledShader t spec

/-- The linear scan `.iter().find(..)` over a pipeline cache-entry list
(pipeline_compiler.rs lines 202-209). -/
def findCompiledPipeline :
    List (PipelineSpecialization × Nat) → PipelineSpecialization →
      Option (PipelineSpecialization × Nat)
  | [], _ => none
  | e :: t, spec => if e.1.eqv spec then some e else findCompiledPipeline t spec

/-! ## The compiler functions (pipeline_compiler.rs lines 47-246) -/

/-- `PipelineCompiler::compile_shader` (pipeline_compiler.rs lines
100-139).  Ensures a cache-entry list exists for the source shader;
returns the source handle unchanged when its source is already SPIR-V;
otherwise scans the cache and, on a miss, collects the define set into
an ordered list, invokes the external compilation service (logged),
stores the result under a fresh handle and appends the new cache entry.
The Rust `unwrap` on the asset lookup becomes `Option` failure. -/
def PipelineCompiler.compile_shader (st : CompilerState) (shader_handle : Nat)
    (shader_specialization : ShaderSpecialization) : Option (CompilerState × Nat) :=
  let compiled_shaders := shaderCacheOf st shader_handle
  let cache1 := assocInsert st.shader_source_to_compiled shader_handle compiled_shaders
  let st1 := { st with shader_source_to_compiled := cache1 }
  match st1.shader_storage.get shader_handle with
  | none => none
  | some shader =>
    match shader.source with
    | ShaderSource.Spirv _ => some (st1, shader_handle)
    | ShaderSource.Glsl _ =>
      match findCompiledShader compiled_shaders shader_specialization with
      | some e => some (st1, e.2)
      | none =>
        let shader_def_vec := shader_specialization.shader_defs
        let compiled_shader := shader.get_spirv_shader shader_def_vec
        let added := st1.shader_storage.add compiled_shader
        let cache2 := assocInsert st1.shader_source_to_compiled shader_handle
          (compiled_shaders ++ [(shader_specialization, added.2)])
        let log2 := st1.compile_log ++ [shader_def_vec]
        let st2 := { st1 with shader_storage := added.1,
                              shader_source_to_compiled := cache2,
                              compile_log := log2 }
        some (st2, added.2)

/-- The body of the dynamic-binding loop of
`PipelineCompiler::reflect_layout` (pipeline_compiler.rs lines 75-95)
applied to one binding: when a live resource is bound under the
binding's name and its metadata reports a buffer, a uniform binding's
dynamic flag is set to the buffer's dynamic flag; every other binding is
left unchanged. -/
def markBindingDynamic (ctx : RenderResourceContext)
    (rra : RenderResourceAssignments) (b : Binding) : Binding :=
  match rra.get b.name with
  | none => b
  | some render_resource =>
    match ctx.get_resource_info render_resource with
    | some (ResourceInfo.Buffer info) =>
      match b.bind_type with
      | BindType.Uniform _ => { b with bind_type := BindType.Uniform info.is_dynamic }
      | _ => b
    | _ => b

/-- The dynamic-binding loop of `PipelineCompiler::reflect_layout`
(pipeline_compiler.rs lines 75-95) over the whole merged layout. -/
def markLayoutDynamic (ctx : RenderResourceContext)
    (rra : RenderResourceAssignments) (layout : PipelineLayout) : PipelineLayout :=
  let markGroup := fun (g : BindGroup) =>
    { g with bindings := g.bindings.map (markBindingDynamic ctx rra) }
  { layout with bind_groups := layout.bind_groups.map markGroup }

/-- `PipelineCompiler::reflect_layout` (pipeline_compiler.rs lines
47-98): reflect the vertex (and optional fragment) stage, merge the
stage layouts, synchronize vertex-buffer descriptors, run the
dynamic-binding loop, and attach the result as the descriptor's
reflected layout.  Each Rust `unwrap` becomes `Option` failure. -/
def PipelineCompiler.reflect_layout (shader_storage : AssetStorage Shader)
    (vertex_buffer_descriptors : VertexBufferDescriptors)
    (pipeline_descriptor : PipelineDescriptor) (ctx : RenderResourceContext)
    (rra : RenderResourceAssignments) : Option PipelineDescriptor :=
  match shader_storage.get pipeline_descriptor.shader_stages.vertex with
  | none => none
  | some vertex_shader =>
    match vertex_shader.reflect_layout with
    | none => none
    | some vertex_layout =>
      let fragment_layouts : Option (List ShaderLayout) :=
        match pipeline_descriptor.shader_stages.fragment with
        | none => some [vertex_layout]
        | some fragment_handle =>
          match shader_storage.get fragment_handle with
          | none => none
          | some fragment_shader =>
            match fragment_shader.reflect_layout with
            | none => none
            | some fragment_layout => some [vertex_layout, fragment_layout]
      match fragment_layouts with
      | none => none
      | some layouts =>
        let layout := PipelineLayout.from_shader_layouts layouts
        let layout := layout.sync_vertex_buffer_descriptors vertex_buffer_descriptors
        let layout := markLayoutDynamic ctx rra layout
        let reflected := PipelineLayoutType.Reflected (some layout)
        some { pipeline_descriptor with layout := reflected }

/-- `PipelineCompiler::compile_pipeline` (pipeline_compiler.rs lines
141-184): clone the source descriptor, resolve both shader stages with
the draw call's shader specialization, reflect and attach the layout,
and override the primitive topology from the draw call's
specialization. -/
def PipelineCompiler.compile_pipeline (vbd : VertexBufferDescriptors)
    (ctx : RenderResourceContext) (st : CompilerState)
    (pipeline_descriptor : PipelineDescriptor) (rra : RenderResourceAssignments) :
    Option (CompilerState × PipelineDescriptor) :=
  match PipelineCompiler.compile_shader st pipeline_descriptor.shader_stages.vertex
      rra.pipeline_specialization.shader_specialization with
  | none => none
  | some (st1, vertex_handle) =>
    let fragment_result : Option (CompilerState × Option Nat) :=
      match pipeline_descriptor.shader_stages.fragment with
      | none => some (st1, none)
      | some fragment =>
        match PipelineCompiler.compile_shader st1 fragment
            rra.pipeline_specialization.shader_specialization with
        | none => none
        | some (st2, fragment_handle) => some (st2, some fragment_handle)
    match fragment_result with
    | none => none
    | some (st2, fragment_handle) =>
      let stages : ShaderStages := { vertex := vertex_handle, fragment := fragment_handle }
      let compiled := { pipeline_descriptor with shader_stages := stages }
      match PipelineCompiler.reflect_layout st2.shader_storage vbd compiled ctx rra with
      | none => none
      | some compiled2 =>
        let topology := rra.pipeline_specialization.primitive_topology
        some (st2, { compiled2 with primitive_topology := topology })

/-- The assignment push of `PipelineCompiler::update_shader_assignments`
(pipeline_compiler.rs lines 234-244): ensure a list exists for the
compiled handle and append the draw call's resource-set identifier. -/
def pushAssignment (st : CompilerState) (final_handle : Nat) (id : Nat) : CompilerState :=
  let ids := (assocFind st.assignments final_handle).getD []
  { st with assignments := assocInsert st.assignments final_handle (ids ++ [id]) }

/-- The body of the loop of `PipelineCompiler::update_shader_assignments`
for one source pipeline handle (pipeline_compiler.rs lines 196-245):
ensure a cache-entry list exists, scan it for the draw call's
specialization, on a miss compile a new variant, store it under a fresh
handle and append the cache entry, then record the resource-set
identifier under the final handle.  Returns the final handle together
with the new state. -/
def PipelineCompiler.resolve_pipeline (vbd : VertexBufferDescriptors)
    (ctx : RenderResourceContext) (st : CompilerState) (pipeline_handle : Nat)
    (rra : RenderResourceAssignments) : Option (CompilerState × Nat) :=
  let entries := pipelineCacheOf st pipeline_handle
  let cache1 := assocInsert st.pipeline_source_to_compiled pipeline_handle entries
  let st1 := { st with pipeline_source_to_compiled := cache1 }
  match findCompiledPipeline entries rra.pipeline_specialization with
  | some e => some (pushAssignment st1 e.2 rra.id, e.2)
  | none =>
    match st1.pipeline_storage.get pipeline_handle with
    | none => none
    | some pipeline_descriptor =>
      match PipelineCompiler.compile_pipeline vbd ctx st1 pipeline_descriptor rra with
      | none => none
      | some (st2, compiled_pipeline) =>
        let added := st2.pipeline_storage.add compiled_pipeline
        let st3 := { st2 with pipeline_storage := added.1 }
        let macro_pipelines := pipelineCacheOf st3 pipeline_handle
        let cache2 := assocInsert st3.pipeline_source_to_compiled pipeline_handle
          (macro_pipelines ++ [(rra.pipeline_specialization, added.2)])
        let st4 := { st3 with pipeline_source_to_compiled := cache2 }
        some (pushAssignment st4 added.2 rra.id, added.2)

/-- `PipelineCompiler::update_shader_assignments` (pipeline_compiler.rs
lines 186-246): resolve every listed source pipeline for the draw call's
specialization, recording each resolved handle in the assignment
table. -/
def PipelineCompiler.update_shader_assignments (vbd : VertexBufferDescriptors)
    (ctx : RenderResourceContext) (st : CompilerState) :
    List Nat → RenderResourceAssignments → Option CompilerState
  | [], _ => some st
  | p :: ps, rra =>
    match PipelineCompiler.resolve_pipeline vbd ctx st p rra with
    | none => none
    | some (st1, _) => PipelineCompiler.update_shader_assignments vbd ctx st1 ps rra

/-! ## The frame driver (pipeline_compiler.rs lines 284-327) -/

/-- The transient reset at pipeline_compiler.rs lines 318-324: clear the
entity's shader-define set. -/
def clearShaderDefs (r : Renderable) : Renderable :=
  let rra := r.render_resource_assignments
  let ps := { rra.pipeline_specialization with shader_specialization := { shader_defs := [] } }
  { r with render_resource_assignments := { rra with pipeline_specialization := ps } }

/-- One iteration of the frame loop (pipeline_compiler.rs lines
302-325): an instanced renderable is skipped entirely; otherwise its
pipelines are resolved and its define set is cleared afterwards. -/
def processRenderable (vbd : VertexBufferDescriptors) (ctx : RenderResourceContext)
    (st : CompilerState) (r : Renderable) : Option (CompilerState × Renderable) :=
  if r.is_instanced then some (st, r)
  else
    match PipelineCompiler.update_shader_assignments vbd ctx st r.pipelines
        r.render_resource_assignments with
    | none => none
    | some st1 => some (st1, clearShaderDefs r)

/-- The frame loop over all renderable entities, in query order.  A
failure (a Rust panic) while processing one entity aborts the whole
pass, exactly as an `unwrap` panic does. -/
def processRenderables (vbd : VertexBufferDescriptors) (ctx : RenderResourceContext)
    (st : CompilerState) : List Renderable → Option (CompilerState × List Renderable)
  | [] => some (st, [])
  | r :: rs =>
    match processRenderable vbd ctx st r with
    | none => none
    | some (st1, r1) =>
      match processRenderables vbd ctx st1 rs with
      | none => none
      | some (st2, rs2) => some (st2, r1 :: rs2)

/-- The free function `update_shader_assignments` (pipeline_compiler.rs
lines 284-327): reset the assignment table to empty, then process every
renderable entity.  Returns the final state and the updated
entities. -/
def update_shader_assignments (vbd : VertexBufferDescriptors)
    (ctx : RenderResourceContext) (st : CompilerState) (world : List Renderable) :
    Option (CompilerState × List Renderable) :=
  processRenderables vbd ctx { st with assignments := [] } world

/-! ## Observables and invariants used by the claims -/

/-- An identifier occurs somewhere in an assignment table. -/
def idInTable (table : List (Nat × List Nat)) (x : Nat) : Prop :=
  ∃ e ∈ table, x ∈ e.2

/-- Whether a binding carries a dynamic mark: only uniform bindings have
a dynamic flag at all. -/
def bindingIsDynamic (b : Binding) : Bool :=
  match b.bind_type with
  | BindType.Uniform dynamic => dynamic
  | _ => false

/-- The number of cache entries of a source pipeline whose stored
specialization equals (by value) the given one. -/
def countEqvPipeline (st : CompilerState) (p : Nat) (spec : PipelineSpecialization) : Nat :=
  ((pipelineCacheOf st p).filter (fun e => e.1.eqv spec)).length

/-- The core cache invariant: at most one compiled pipeline variant per
distinct specialization per source pipeline. -/
def PipelineCacheInv (st : CompilerState) : Prop :=
  ∀ p spec, countEqvPipeline st p spec ≤ 1

/-- One pipeline-variant resolution request (one iteration of
`PipelineCompiler::update_shader_assignments` in some later frame, with
whatever descriptor tables and live resources that frame carries). -/
structure ResolveOp : Type where
  vbd : VertexBufferDescriptors
  ctx : RenderResourceContext
  pipeline : Nat
  rra : RenderResourceAssignments

/-- Run a sequence of pipeline-variant resolutions (any pipelines, any
draw calls, across any number of frames). -/
def resolveMany (st : CompilerState) : List ResolveOp → Option CompilerState
  | [] => some st
  | op :: ops =>
    match PipelineCompiler.resolve_pipeline op.vbd op.ctx st op.pipeline op.rra with
    | none => none
    | some (st1, _) => resolveMany st1 ops

/-! ## Concrete example data (used by witnesses and counterexamples) -/

/-- A compilable (GLSL) shader. -/
def exShader : Shader := { source := ShaderSource.Glsl "void main" }

/-- The reflected layout of the example binary shader. -/
def exSpirvLayout : ShaderLayout := { bind_groups := [], vertex_buffer_descriptors := [] }

/-- A shader already in final binary (SPIR-V) form. -/
def exSpirvShader : Shader := { source := ShaderSource.Spirv exSpirvLayout }

/-- Shader store: handle 0 is the GLSL shader, handle 1 the SPIR-V one. -/
def exShaderStorage : AssetStorage Shader :=
  { assets := [(0, exShader), (1, exSpirvShader)], next_handle := 2 }

/-- A source pipeline descriptor over the GLSL vertex shader. -/
def exPipelineDescriptor : PipelineDescriptor :=
  { shader_stages := { vertex := 0, fragment := none },
    layout := PipelineLayoutType.Reflected none,
    primitive_topology := PrimitiveTopology.PointList }

/-- Pipeline store: handle 0 is the example source pipeline. -/
def exPipelineStorage : AssetStorage PipelineDescriptor :=
  { assets := [(0, exPipelineDescriptor)], next_handle := 1 }

/-- A starting compiler state with empty caches. -/
def exState : CompilerState :=
  { shader_source_to_compiled := [], pipeline_source_to_compiled := [],
    shader_storage := exShaderStorage, pipeline_storage := exPipelineStorage,
    assignments := [], compile_log := [] }

/-- Shader specialization with defines in the order A, B. -/
def exSpecAB : ShaderSpecialization := { shader_defs := ["A", "B"] }

/-- Shader specialization with defines in the order B, A (the same set). -/
def exSpecBA : ShaderSpecialization := { shader_defs := ["B", "A"] }

/-- Shader specialization with the single define A. -/
def exSpecA : ShaderSpecialization := { shader_defs := ["A"] }

/-- Shader specialization with the single define B. -/
def exSpecB : ShaderSpecialization := { shader_defs := ["B"] }

/-- Pipeline specialization with define A and triangle-list topology. -/
def exPSpec : PipelineSpecialization :=
  { shader_specialization := exSpecA, primitive_topology := PrimitiveTopology.TriangleList }

/-- A draw resource set with identifier 7. -/
def exRra : RenderResourceAssignments :=
  { bindings := [], pipeline_specialization := exPSpec, id := 7 }

/-- A draw resource set with identifier 8. -/
def exRra8 : RenderResourceAssignments :=
  { bindings := [], pipeline_specialization := exPSpec, id := 8 }

/-- Empty vertex-buffer descriptor table. -/
def exVbd : VertexBufferDescriptors := { descriptors := [] }

/-- Empty live-resource registry. -/
def exCtx : RenderResourceContext := { resources := [] }

/-- A non-instanced renderable listing the example pipeline. -/
def exRenderable : Renderable :=
  { is_instanced := false, pipelines := [0], render_resource_assignments := exRra }

/-- A non-instanced renderable whose pipeline handle 9 is absent from
the pipeline store: resolving it fails (`NotFound`). -/
def exBadRenderable : Renderable :=
  { is_instanced := false, pipelines := [9], render_resource_assignments := exRra }

/-- A second healthy non-instanced renderable, with identifier 8. -/
def exGoodRenderable : Renderable :=
  { is_instanced := false, pipelines := [0], render_resource_assignments := exRra8 }

/-- An instanced renderable listing a pipeline with a novel
specialization. -/
def exInstancedRenderable : Renderable :=
  { is_instanced := true, pipelines := [0], render_resource_assignments := exRra }

/-- A sampler binding named after a live dynamic buffer (for the
dynamic-marking loop). -/
def exSamplerBinding : Binding := { name := "m", bind_type := BindType.Sampler }

/-- A merged layout containing only the sampler binding. -/
def exSamplerLayout : PipelineLayout :=
  { bind_groups := [{ index := 0, bindings := [exSamplerBinding] }],
    vertex_buffer_descriptors := [] }

/-- A draw resource set binding the name m to resource 3. -/
def exRraM : RenderResourceAssignments :=
  { bindings := [("m", 3)], pipeline_specialization := exPSpec, id := 7 }

/-- A live-resource registry reporting resource 3 as a dynamic buffer. -/
def exCtxDyn : RenderResourceContext :=
  { resources := [(3, ResourceInfo.Buffer { is_dynamic := true })] }

/-- The result of resolving the example pipeline once from the empty
starting state (used by witnesses). -/
def exResolved : CompilerState × Nat :=
  (PipelineCompiler.resolve_pipeline exVbd exCtx exState 0 exRra).getD (exState, 0)

/-- The result of specializing the example SPIR-V shader (handle 1). -/
def exSpirvCompiled : CompilerState × Nat :=
  (PipelineCompiler.compile_shader exState 1 exSpecAB).getD (exState, 0)

/-- The result of specializing the example GLSL shader (handle 0) with
the defines A, B. -/
def exCompiledA : CompilerState × Nat :=
  (PipelineCompiler.compile_shader exState 0 exSpecAB).getD (exState, 0)

/-- The result of one frame pass over a healthy entity followed by an
instanced one. -/
def exFrameResult : CompilerState × List Renderable :=
  (update_shader_assignments exVbd exCtx exState
    [exRenderable, exInstancedRenderable]).getD (exState, [])

/-- The example state with a stale assignment table left over from an
earlier frame. -/
def exStateDirty : CompilerState := { exState with assignments := [(42, [99])] }

/-- One frame pass starting from the stale table. -/
def exFrameDirty : CompilerState × List Renderable :=
  (update_shader_assignments exVbd exCtx exStateDirty
    [exRenderable, exInstancedRenderable]).getD (exState, [])

/-- A uniform binding named after a live dynamic buffer. -/
def exUniformBinding : Binding := { name := "m", bind_type := BindType.Uniform false }

/-- A merged layout containing only the uniform binding. -/
def exUniformLayout : PipelineLayout :=
  { bind_groups := [{ index := 0, bindings := [exUniformBinding] }],
    vertex_buffer_descriptors := [] }

/-! ## Helper lemmas -/

theorem assocFind_insert {κ α : Type} [DecidableEq κ] (l : List (κ × α)) (k k' : κ) (v : α) :
    assocFind (assocInsert l k v) k' = if k = k' then some v else assocFind l k' := by
  induction l with
  | nil => simp [assocFind, assocInsert]
  | cons e t ih =>
    by_cases h : e.1 = k
    · by_cases h' : k = k' <;> simp [assocFind, assocInsert, h, h']
    · by_cases h' : e.1 = k'
      · have hk : ¬k = k' := fun hk => h (hk ▸ h')
        have hk' : ¬k' = k := fun hh => hk hh.symm
        simp [assocFind, assocInsert, h, h', hk, hk']
      · simp [assocFind, assocInsert, h, h', ih]

theorem assocFind_append_left {κ α : Type} [DecidableEq κ] (l l' : List (κ × α)) (k : κ) (v : α)
    (h : assocFind l k = some v) : assocFind (l ++ l') k = some v := by
  induction l with
  | nil => simp [assocFind] at h
  | cons e t ih =>
    by_cases he : e.1 = k <;> simp_all [assocFind]

theorem assocFind_mem {κ α : Type} [DecidableEq κ] {l : List (κ × α)} {k : κ} {v : α}
    (h : assocFind l k = some v) : (k, v) ∈ l := by
  induction l with
  | nil => simp [assocFind] at h
  | cons e t ih =>
    by_cases he : e.1 = k
    · simp only [assocFind, he, if_pos] at h
      have he2 : e = (k, v) := by
        cases e
        simp only at he h
        simp only [Option.some.injEq] at h
        simp [he, h]
      exact he2 ▸ List.mem_cons_self _ _
    · simp only [assocFind, he, if_neg, ite_false] at h
      exact List.mem_cons_of_mem _ (ih h)

theorem mem_assocInsert {κ α : Type} [DecidableEq κ] {l : List (κ × α)} {k : κ} {v : α}
    {e : κ × α} (h : e ∈ assocInsert l k v) : e = (k, v) ∨ e ∈ l := by
  induction l with
  | nil => simp [assocInsert] at h; left; exact h
  | cons e0 t ih =>
    by_cases he : e0.1 = k
    · simp [assocInsert, he] at h
      rcases h with h | h
      · left; exact h
      · right; exact List.mem_cons_of_mem _ h
    · simp [assocInsert, he] at h
      rcases h with h | h
      · right; exact h ▸ List.mem_cons_self _ _
      · rcases ih h with h' | h'
        · left; exact h'
        · right; exact List.mem_cons_of_mem _ h'

theorem seqv_iff (a b : ShaderSpecialization) :
    a.eqv b = true ↔ (∀ x, x ∈ a.shader_defs ↔ x ∈ b.shader_defs) := by
  simp only [ShaderSpecialization.eqv, Bool.and_eq_true, List.all_eq_true,
    List.elem_eq_mem, decide_eq_true_eq]
  constructor
  · rintro ⟨h1, h2⟩ x
    exact ⟨fun hx => h1 x hx, fun hx => h2 x hx⟩
  · intro h
    exact ⟨fun x hx => (h x).mp hx, fun x hx => (h x).mpr hx⟩

theorem seqv_refl (a : ShaderSpecialization) : a.eqv a = true := by
  rw [seqv_iff]; intro x; exact Iff.rfl

theorem seqv_symm {a b : ShaderSpecialization}
    (h : a.eqv b = true) : b.eqv a = true := by
  rw [seqv_iff] at h ⊢
  intro x; exact (h x).symm

theorem seqv_trans {a b c : ShaderSpecialization}
    (h1 : a.eqv b = true) (h2 : b.eqv c = true) : a.eqv c = true := by
  rw [seqv_iff] at h1 h2 ⊢
  intro x; exact (h1 x).trans (h2 x)

theorem peqv_iff (a b : PipelineSpecialization) :
    a.eqv b = true ↔
      (a.shader_specialization.eqv b.shader_specialization = true ∧
        a.primitive_topology = b.primitive_topology) := by
  simp [PipelineSpecialization.eqv]

theorem peqv_refl (a : PipelineSpecialization) : a.eqv a = true := by
  rw [peqv_iff]
  exact ⟨seqv_refl _, rfl⟩

theorem peqv_symm {a b : PipelineSpecialization}
    (h : a.eqv b = true) : b.eqv a = true := by
  rw [peqv_iff] at h ⊢
  exact ⟨seqv_symm h.1, h.2.symm⟩

theorem peqv_trans {a b c : PipelineSpecialization}
    (h1 : a.eqv b = true) (h2 : b.eqv c = true) : a.eqv c = true := by
  rw [peqv_iff] at h1 h2 ⊢
  exact ⟨seqv_trans h1.1 h2.1, h1.2.trans h2.2⟩

theorem AssetStorage.get_add_of_get {α : Type} (s : AssetStorage α) (a : α) (h : Nat) (v : α)
    (hv : s.get h = some v) : (s.add a).1.get h = some v := by
  unfold AssetStorage.get AssetStorage.add at *
  exact assocFind_append_left _ _ _ _ hv

theorem compile_shader_frame (st : CompilerState) (h : Nat) (s : ShaderSpecialization)
    (st' : CompilerState) (n : Nat)
    (hc : PipelineCompiler.compile_shader st h s = some (st', n)) :
    st'.pipeline_source_to_compiled = st.pipeline_source_to_compiled ∧
    st'.pipeline_storage = st.pipeline_storage ∧
    st'.assignments = st.assignments := by
  unfold PipelineCompiler.compile_shader at hc
  dsimp only at hc
  split at hc
  · exact absurd hc (by simp)
  · split at hc
    · cases hc
      exact ⟨rfl, rfl, rfl⟩
    · split at hc
      · cases hc
        exact ⟨rfl, rfl, rfl⟩
      · cases hc
        exact ⟨rfl, rfl, rfl⟩

theorem compile_pipeline_frame (vbd : VertexBufferDescriptors) (ctx : RenderResourceContext)
    (st : CompilerState) (pd : PipelineDescriptor) (rra : RenderResourceAssignments)
    (st' : CompilerState) (pd' : PipelineDescriptor)
    (hc : PipelineCompiler.compile_pipeline vbd ctx st pd rra = some (st', pd')) :
    st'.pipeline_source_to_compiled = st.pipeline_source_to_compiled ∧
    st'.pipeline_storage = st.pipeline_storage ∧
    st'.assignments = st.assignments := by
  unfold PipelineCompiler.compile_pipeline at hc
  dsimp only at hc
  split at hc
  · exact absurd hc (by simp)
  · rename_i st1 vh heq1
    have hf1 := compile_shader_frame _ _ _ _ _ heq1
    split at hc
    · exact absurd hc (by simp)
    · rename_i st2 fragment heqf
      split at hc
      · exact absurd hc (by simp)
      · rename_i compiled2 heq2
        cases hc
        rcases hfr : pd.shader_stages.fragment with _ | f
        · rw [hfr] at heqf
          dsimp only at heqf
          cases heqf
          exact hf1
        · rw [hfr] at heqf
          dsimp only at heqf
          rcases hcs : PipelineCompiler.compile_shader st1 f
              rra.pipeline_specialization.shader_specialization with _ | ⟨st2x, fhx⟩
          · rw [hcs] at heqf
            exact absurd heqf (by simp)
          · rw [hcs] at heqf
            dsimp only at heqf
            have hf2 := compile_shader_frame _ _ _ _ _ hcs
            cases heqf
            exact ⟨hf2.1.trans hf1.1, hf2.2.1.trans hf1.2.1, hf2.2.2.trans hf1.2.2⟩

theorem pipelineCacheOf_push (st : CompilerState) (h x q : Nat) :
    pipelineCacheOf (pushAssignment st h x) q = pipelineCacheOf st q := rfl

theorem resolve_pipeline_cases (vbd : VertexBufferDescriptors) (ctx : RenderResourceContext)
    (st : CompilerState) (p : Nat) (rra : RenderResourceAssignments)
    (st' : CompilerState) (h : Nat)
    (hres : PipelineCompiler.resolve_pipeline vbd ctx st p rra = some (st', h)) :
    (∃ e, findCompiledPipeline (pipelineCacheOf st p) rra.pipeline_specialization = some e ∧
      h = e.2 ∧ ∀ q, pipelineCacheOf st' q = pipelineCacheOf st q)
    ∨ (findCompiledPipeline (pipelineCacheOf st p) rra.pipeline_specialization = none ∧
      pipelineCacheOf st' p = pipelineCacheOf st p ++ [(rra.pipeline_specialization, h)] ∧
      ∀ q, q ≠ p → pipelineCacheOf st' q = pipelineCacheOf st q) := by
  unfold PipelineCompiler.resolve_pipeline at hres
  dsimp only at hres
  split at hres
  · rename_i e heqf
    cases hres
    left
    refine ⟨e, heqf, rfl, fun q => ?_⟩
    rw [pipelineCacheOf_push]
    unfold pipelineCacheOf
    dsimp only
    rw [assocFind_insert]
    by_cases hq : p = q
    · subst hq
      rw [if_pos rfl]
      rfl
    · rw [if_neg hq]
  · rename_i heqf
    split at hres
    · exact absurd hres (by simp)
    · rename_i pd heqget
      split at hres
      · exact absurd hres (by simp)
      · rename_i st2 cp heqc
        cases hres
        right
        have hf := compile_pipeline_frame _ _ _ _ _ _ _ heqc
        refine ⟨heqf, ?_, ?_⟩
        · rw [pipelineCacheOf_push]
          unfold pipelineCacheOf
          dsimp only
          rw [assocFind_insert, if_pos rfl]
          rw [hf.1]
          dsimp only
          unfold pipelineCacheOf
          rw [assocFind_insert, if_pos rfl]
          rfl
        · intro q hq
          rw [pipelineCacheOf_push]
          unfold pipelineCacheOf
          dsimp only
          rw [assocFind_insert, if_neg (fun hh => hq hh.symm)]
          rw [hf.1]
          dsimp only
          rw [assocFind_insert, if_neg (fun hh => hq hh.symm)]

theorem findCompiledPipeline_some_mem {l : List (PipelineSpecialization × Nat)}
    {spec : PipelineSpecialization} {e : PipelineSpecialization × Nat}
    (h : findCompiledPipeline l spec = some e) : e ∈ l ∧ e.1.eqv spec = true := by
  induction l with
  | nil => simp [findCompiledPipeline] at h
  | cons e0 t ih =>
    by_cases he : e0.1.eqv spec = true
    · simp only [findCompiledPipeline, he, if_pos, Option.some.injEq] at h
      exact ⟨h ▸ List.mem_cons_self _ _, h ▸ he⟩
    · simp only [findCompiledPipeline, he, if_neg, ite_false] at h
      rcases ih h with ⟨h1, h2⟩
      exact ⟨List.mem_cons_of_mem _ h1, h2⟩

theorem findCompiledPipeline_none_iff {l : List (PipelineSpecialization × Nat)}
    {spec : PipelineSpecialization} :
    findCompiledPipeline l spec = none ↔ ∀ e ∈ l, e.1.eqv spec = false := by
  induction l with
  | nil => simp [findCompiledPipeline]
  | cons e0 t ih =>
    by_cases hb : e0.1.eqv spec = true
    · constructor
      · intro h
        simp [findCompiledPipeline, hb] at h
      · intro h
        exact absurd (h e0 (List.mem_cons_self _ _)) (by simp [hb])
    · have hb' : e0.1.eqv spec = false := Bool.eq_false_iff.mpr hb
      constructor
      · intro h e he
        rcases List.mem_cons.mp he with rfl | hmem
        · exact hb'
        · refine ih.mp ?_ e hmem
          simpa [findCompiledPipeline, hb] using h
      · intro h
        have ht : findCompiledPipeline t spec = none :=
          ih.mpr (fun e he => h e (List.mem_cons_of_mem _ he))
        simpa [findCompiledPipeline, hb] using ht

theorem findCompiledPipeline_congr {s1 s2 : PipelineSpecialization}
    (l : List (PipelineSpecialization × Nat)) (h : s1.eqv s2 = true) :
    findCompiledPipeline l s1 = findCompiledPipeline l s2 := by
  induction l with
  | nil => rfl
  | cons e0 t ih =>
    have he : e0.1.eqv s1 = e0.1.eqv s2 := by
      cases hb : e0.1.eqv s1
      · cases hb2 : e0.1.eqv s2
        · rfl
        · exact absurd (peqv_trans hb2 (peqv_symm h))
            (by simp [hb])
      · exact (peqv_trans hb h).symm
    simp only [findCompiledPipeline, he, ih]

theorem findCompiledPipeline_append_left {l l2 : List (PipelineSpecialization × Nat)}
    {spec : PipelineSpecialization} {e : PipelineSpecialization × Nat}
    (h : findCompiledPipeline l spec = some e) :
    findCompiledPipeline (l ++ l2) spec = some e := by
  induction l with
  | nil => simp [findCompiledPipeline] at h
  | cons e0 t ih =>
    by_cases he : e0.1.eqv spec = true <;>
      simp_all [findCompiledPipeline, he]

theorem findCompiledPipeline_append_none {l l2 : List (PipelineSpecialization × Nat)}
    {spec : PipelineSpecialization} (h : findCompiledPipeline l spec = none) :
    findCompiledPipeline (l ++ l2) spec = findCompiledPipeline l2 spec := by
  induction l with
  | nil => rfl
  | cons e0 t ih =>
    by_cases he : e0.1.eqv spec = true <;>
      simp_all [findCompiledPipeline, he]

theorem countEqv_append (l l2 : List (PipelineSpecialization × Nat))
    (spec : PipelineSpecialization) :
    ((l ++ l2).filter (fun e => e.1.eqv spec)).length =
      (l.filter (fun e => e.1.eqv spec)).length +
        (l2.filter (fun e => e.1.eqv spec)).length := by
  simp [List.filter_append]

theorem countEqv_of_find_none {l : List (PipelineSpecialization × Nat)}
    {spec : PipelineSpecialization} (h : findCompiledPipeline l spec = none) :
    (l.filter (fun e => e.1.eqv spec)).length = 0 := by
  rw [findCompiledPipeline_none_iff] at h
  simp only [List.length_eq_zero, List.filter_eq_nil]
  intro e he
  simp [h e he]

theorem countEqv_pos_of_find_some {l : List (PipelineSpecialization × Nat)}
    {spec : PipelineSpecialization} {e : PipelineSpecialization × Nat}
    (h : findCompiledPipeline l spec = some e) :
    1 ≤ (l.filter (fun e => e.1.eqv spec)).length := by
  rcases findCompiledPipeline_some_mem h with ⟨hmem, heqv⟩
  have : e ∈ l.filter (fun e => e.1.eqv spec) := by
    rw [List.mem_filter]
    exact ⟨hmem, by simp [heqv]⟩
  exact List.length_pos.mpr (fun hnil => by simp [hnil] at this)

theorem countEqv_congr {s1 s2 : PipelineSpecialization}
    (l : List (PipelineSpecialization × Nat)) (h : s1.eqv s2 = true) :
    (l.filter (fun e => e.1.eqv s1)).length = (l.filter (fun e => e.1.eqv s2)).length := by
  induction l with
  | nil => rfl
  | cons e0 t ih =>
    have he : e0.1.eqv s1 = e0.1.eqv s2 := by
      cases hb : e0.1.eqv s1
      · cases hb2 : e0.1.eqv s2
        · rfl
        · exact absurd (peqv_trans hb2 (peqv_symm h))
            (by simp [hb])
      · exact (peqv_trans hb h).symm
    simp only [List.filter_cons, he, ih]
    cases e0.1.eqv s2 <;> simp [ih]

theorem resolve_step_find (vbd : VertexBufferDescriptors) (ctx : RenderResourceContext)
    (st : CompilerState) (p' : Nat) (rra' : RenderResourceAssignments)
    (st' : CompilerState) (h' : Nat)
    (hres : PipelineCompiler.resolve_pipeline vbd ctx st p' rra' = some (st', h'))
    (p : Nat) (spec : PipelineSpecialization) (e : PipelineSpecialization × Nat)
    (hfind : findCompiledPipeline (pipelineCacheOf st p) spec = some e) :
    findCompiledPipeline (pipelineCacheOf st' p) spec = some e := by
  rcases resolve_pipeline_cases vbd ctx st p' rra' st' h' hres with
    ⟨e0, _, _, hall⟩ | ⟨hnone, hp, hother⟩
  · rw [hall p]; exact hfind
  · by_cases hpq : p = p'
    · subst hpq
      rw [hp]
      exact findCompiledPipeline_append_left hfind
    · rw [hother p hpq]; exact hfind

theorem resolve_step_count_le (vbd : VertexBufferDescriptors) (ctx : RenderResourceContext)
    (st : CompilerState) (p' : Nat) (rra' : RenderResourceAssignments)
    (st' : CompilerState) (h' : Nat)
    (hres : PipelineCompiler.resolve_pipeline vbd ctx st p' rra' = some (st', h'))
    (p : Nat) (spec : PipelineSpecialization) :
    countEqvPipeline st' p spec ≤ max 1 (countEqvPipeline st p spec) := by
  rcases resolve_pipeline_cases vbd ctx st p' rra' st' h' hres with
    ⟨e0, _, _, hall⟩ | ⟨hnone, hp, hother⟩
  · unfold countEqvPipeline
    rw [hall p]
    exact Nat.le_max_right _ _
  · by_cases hpq : p = p'
    · subst hpq
      unfold countEqvPipeline
      rw [hp, countEqv_append]
      by_cases heqv : rra'.pipeline_specialization.eqv spec = true
      · have h0 : ((pipelineCacheOf st p).filter (fun e => e.1.eqv spec)).length = 0 := by
          rw [← countEqv_congr _ heqv]
          exact countEqv_of_find_none hnone
        rw [h0]
        simp [List.filter, heqv]
      · have h1 : (([(rra'.pipeline_specialization, h')] : List (PipelineSpecialization × Nat)).filter
            (fun e => e.1.eqv spec)).length = 0 := by
          simp [List.filter, heqv]
        rw [h1]
        exact le_max_of_le_right (Nat.le_of_eq (Nat.add_zero _))
    · unfold countEqvPipeline
      rw [hother p hpq]
      exact Nat.le_max_right _ _

theorem resolve_step_count_one (vbd : VertexBufferDescriptors) (ctx : RenderResourceContext)
    (st : CompilerState) (p' : Nat) (rra' : RenderResourceAssignments)
    (st' : CompilerState) (h' : Nat)
    (hres : PipelineCompiler.resolve_pipeline vbd ctx st p' rra' = some (st', h'))
    (p : Nat) (spec : PipelineSpecialization)
    (hcount : countEqvPipeline st p spec = 1) : countEqvPipeline st' p spec = 1 := by
  rcases resolve_pipeline_cases vbd ctx st p' rra' st' h' hres with
    ⟨e0, _, _, hall⟩ | ⟨hnone, hp, hother⟩
  · unfold countEqvPipeline at *
    rw [hall p]
    exact hcount
  · by_cases hpq : p = p'
    · subst hpq
      unfold countEqvPipeline at *
      rw [hp, countEqv_append]
      by_cases heqv : rra'.pipeline_specialization.eqv spec = true
      · have h0 : ((pipelineCacheOf st p).filter (fun e => e.1.eqv spec)).length = 0 := by
          rw [← countEqv_congr _ heqv]
          exact countEqv_of_find_none hnone
        rw [h0] at hcount
        exact absurd hcount (by simp)
      · have h1 : (([(rra'.pipeline_specialization, h')] :
            List (PipelineSpecialization × Nat)).filter (fun e => e.1.eqv spec)).length = 0 := by
          simp [List.filter, heqv]
        rw [h1, hcount]
    · unfold countEqvPipeline at *
      rw [hother p hpq]
      exact hcount

theorem resolve_step_inv (vbd : VertexBufferDescriptors) (ctx : RenderResourceContext)
    (st : CompilerState) (p' : Nat) (rra' : RenderResourceAssignments)
    (st' : CompilerState) (h' : Nat)
    (hres : PipelineCompiler.resolve_pipeline vbd ctx st p' rra' = some (st', h'))
    (hinv : PipelineCacheInv st) : PipelineCacheInv st' := by
  intro p spec
  have hle := resolve_step_count_le vbd ctx st p' rra' st' h' hres p spec
  have hb := hinv p spec
  omega

theorem resolveMany_find (ops : List ResolveOp) (st st2 : CompilerState)
    (hr : resolveMany st ops = some st2) (p : Nat) (spec : PipelineSpecialization)
    (e : PipelineSpecialization × Nat)
    (hfind : findCompiledPipeline (pipelineCacheOf st p) spec = some e) :
    findCompiledPipeline (pipelineCacheOf st2 p) spec = some e := by
  induction ops generalizing st with
  | nil =>
    unfold resolveMany at hr
    cases hr
    exact hfind
  | cons op ops ih =>
    unfold resolveMany at hr
    rcases hstep : PipelineCompiler.resolve_pipeline op.vbd op.ctx st op.pipeline op.rra with
      _ | ⟨st1, h1⟩
    · rw [hstep] at hr
      exact absurd hr (by simp)
    · rw [hstep] at hr
      dsimp only at hr
      exact ih st1 hr (resolve_step_find _ _ _ _ _ _ _ hstep p spec e hfind)

theorem resolveMany_count_one (ops : List ResolveOp) (st st2 : CompilerState)
    (hr : resolveMany st ops = some st2) (p : Nat) (spec : PipelineSpecialization)
    (hcount : countEqvPipeline st p spec = 1) : countEqvPipeline st2 p spec = 1 := by
  induction ops generalizing st with
  | nil =>
    unfold resolveMany at hr
    cases hr
    exact hcount
  | cons op ops ih =>
    unfold resolveMany at hr
    rcases hstep : PipelineCompiler.resolve_pipeline op.vbd op.ctx st op.pipeline op.rra with
      _ | ⟨st1, h1⟩
    · rw [hstep] at hr
      exact absurd hr (by simp)
    · rw [hstep] at hr
      dsimp only at hr
      exact ih st1 hr (resolve_step_count_one _ _ _ _ _ _ _ hstep p spec hcount)

/-- Claim C1: for every source pipeline handle and every
`PipelineSpecialization`, resolving the pipeline variant any number of
times, across any number of frames, returns the identical compiled
handle and leaves at most one entry with that specialization in the
source pipeline's cache-entry list; a new entry is appended only when no
existing entry's stored specialization is structurally equal to the
requested one. -/
theorem claim1_pipeline_variant_resolution_idempotent
    (vbd : VertexBufferDescriptors) (ctx : RenderResourceContext)
    (st : CompilerState) (p : Nat) (rra : RenderResourceAssignments)
    (st1 : CompilerState) (h : Nat)
    (hinv : PipelineCacheInv st)
    (hres : PipelineCompiler.resolve_pipeline vbd ctx st p rra = some (st1, h)) :
    PipelineCacheInv st1 ∧
    countEqvPipeline st1 p rra.pipeline_specialization = 1 ∧
    (∀ e, findCompiledPipeline (pipelineCacheOf st p) rra.pipeline_specialization = some e →
      h = e.2 ∧ ∀ q, pipelineCacheOf st1 q = pipelineCacheOf st q) ∧
    (findCompiledPipeline (pipelineCacheOf st p) rra.pipeline_specialization = none →
      pipelineCacheOf st1 p =
        pipelineCacheOf st p ++ [(rra.pipeline_specialization, h)]) ∧
    (∀ ops st2, resolveMany st1 ops = some st2 →
      countEqvPipeline st2 p rra.pipeline_specialization = 1 ∧
      ∀ vbd2 ctx2 rra2 st3 h3,
        rra2.pipeline_specialization.eqv rra.pipeline_specialization = true →
        PipelineCompiler.resolve_pipeline vbd2 ctx2 st2 p rra2 = some (st3, h3) →
        h3 = h) := by
  have hchar := resolve_pipeline_cases vbd ctx st p rra st1 h hres
  have hinv1 := resolve_step_inv vbd ctx st p rra st1 h hres hinv
  have hfind1 : ∃ e1,
      findCompiledPipeline (pipelineCacheOf st1 p) rra.pipeline_specialization = some e1 ∧
      e1.2 = h := by
    rcases hchar with ⟨e0, hf, he, hall⟩ | ⟨hnone, hp, _⟩
    · exact ⟨e0, by rw [hall p]; exact hf, he.symm⟩
    · refine ⟨(rra.pipeline_specialization, h), ?_, rfl⟩
      rw [hp, findCompiledPipeline_append_none hnone]
      simp [findCompiledPipeline, peqv_refl]
  have hcount1 : countEqvPipeline st1 p rra.pipeline_specialization = 1 := by
    rcases hchar with ⟨e0, hf, he, hall⟩ | ⟨hnone, hp, _⟩
    · have hge := countEqv_pos_of_find_some hf
      have hle := hinv p rra.pipeline_specialization
      unfold countEqvPipeline at hle ⊢
      rw [hall p]
      omega
    · unfold countEqvPipeline
      rw [hp, countEqv_append, countEqv_of_find_none hnone]
      simp [List.filter, peqv_refl]
  refine ⟨hinv1, hcount1, ?_, ?_, ?_⟩
  · intro e hf
    rcases hchar with ⟨e0, hf0, he0, hall⟩ | ⟨hnone, _, _⟩
    · rw [hf0] at hf
      cases hf
      exact ⟨he0, hall⟩
    · rw [hnone] at hf
      exact absurd hf (by simp)
  · intro hnone2
    rcases hchar with ⟨e0, hf0, _, _⟩ | ⟨_, hp, _⟩
    · rw [hnone2] at hf0
      exact absurd hf0 (by simp)
    · exact hp
  · intro ops st2 hmany
    obtain ⟨e1, hfind1e, he1⟩ := hfind1
    have hfind2 := resolveMany_find ops st1 st2 hmany p rra.pipeline_specialization e1 hfind1e
    refine ⟨resolveMany_count_one ops st1 st2 hmany p rra.pipeline_specialization hcount1, ?_⟩
    intro vbd2 ctx2 rra2 st3 h3 heqv hres3
    rcases resolve_pipeline_cases vbd2 ctx2 st2 p rra2 st3 h3 hres3 with
      ⟨e2, hf2, he2, _⟩ | ⟨hnone2, _, _⟩
    · rw [findCompiledPipeline_congr _ heqv, hfind2] at hf2
      cases hf2
      exact he2.trans he1
    · rw [findCompiledPipeline_congr _ heqv, hfind2] at hnone2
      exact absurd hnone2 (by simp)

theorem exState_inv : PipelineCacheInv exState := by
  intro p spec
  simp [PipelineCacheInv, countEqvPipeline, pipelineCacheOf, exState, assocFind]

theorem claim1_witness :
    PipelineCacheInv exState ∧
    PipelineCompiler.resolve_pipeline exVbd exCtx exState 0 exRra =
      some (exResolved.1, exResolved.2) ∧
    (PipelineCacheInv exResolved.1 ∧
     countEqvPipeline exResolved.1 0 exRra.pipeline_specialization = 1 ∧
     (∀ e, findCompiledPipeline (pipelineCacheOf exState 0)
         exRra.pipeline_specialization = some e →
       exResolved.2 = e.2 ∧ ∀ q, pipelineCacheOf exResolved.1 q = pipelineCacheOf exState q) ∧
     (findCompiledPipeline (pipelineCacheOf exState 0)
         exRra.pipeline_specialization = none →
       pipelineCacheOf exResolved.1 0 =
         pipelineCacheOf exState 0 ++ [(exRra.pipeline_specialization, exResolved.2)]) ∧
     (∀ ops st2, resolveMany exResolved.1 ops = some st2 →
       countEqvPipeline st2 0 exRra.pipeline_specialization = 1 ∧
       ∀ vbd2 ctx2 rra2 st3 h3,
         rra2.pipeline_specialization.eqv exRra.pipeline_specialization = true →
         PipelineCompiler.resolve_pipeline vbd2 ctx2 st2 0 rra2 = some (st3, h3) →
         h3 = exResolved.2)) :=
  ⟨exState_inv, rfl,
    claim1_pipeline_variant_resolution_idempotent exVbd exCtx exState 0 exRra
      exResolved.1 exResolved.2 exState_inv rfl⟩

theorem compile_shader_isSome (st : CompilerState) (s : Nat)
    (spec : ShaderSpecialization) (sh : Shader)
    (hget : st.shader_storage.get s = some sh) :
    (PipelineCompiler.compile_shader st s spec).isSome = true := by
  unfold PipelineCompiler.compile_shader
  dsimp only
  rw [hget]
  dsimp only
  cases hsrc : sh.source
  · dsimp only
    rfl
  · dsimp only
    cases hfind : findCompiledShader (shaderCacheOf st s) spec <;> dsimp only <;> rfl

theorem compile_shader_miss_spec (st : CompilerState) (s : Nat)
    (spec : ShaderSpecialization) (src : String) (st' : CompilerState) (n : Nat)
    (hget : st.shader_storage.get s = some { source := ShaderSource.Glsl src })
    (hfind : findCompiledShader (shaderCacheOf st s) spec = none)
    (hrun : PipelineCompiler.compile_shader st s spec = some (st', n)) :
    n = st.shader_storage.next_handle ∧
    shaderCacheOf st' s = shaderCacheOf st s ++ [(spec, n)] ∧
    (∀ q, q ≠ s → shaderCacheOf st' q = shaderCacheOf st q) ∧
    st'.compile_log = st.compile_log ++ [spec.shader_defs] ∧
    st'.shader_storage.next_handle = st.shader_storage.next_handle + 1 ∧
    (∀ k v, st.shader_storage.get k = some v → st'.shader_storage.get k = some v) := by
  unfold PipelineCompiler.compile_shader at hrun
  dsimp only at hrun
  rw [hget] at hrun
  dsimp only at hrun
  rw [hfind] at hrun
  dsimp only at hrun
  cases hrun
  refine ⟨rfl, ?_, ?_, rfl, rfl, ?_⟩
  · unfold shaderCacheOf
    dsimp only
    rw [assocFind_insert, if_pos rfl]
    rfl
  · intro q hq
    unfold shaderCacheOf
    dsimp only
    rw [assocFind_insert, if_neg (fun hh => hq hh.symm),
      assocFind_insert, if_neg (fun hh => hq hh.symm)]
  · intro k v hv
    exact AssetStorage.get_add_of_get _ _ _ _ hv

theorem compile_shader_hit_spec (st : CompilerState) (s : Nat)
    (spec : ShaderSpecialization) (src : String) (e : ShaderSpecialization × Nat)
    (st' : CompilerState) (n : Nat)
    (hget : st.shader_storage.get s = some { source := ShaderSource.Glsl src })
    (hfind : findCompiledShader (shaderCacheOf st s) spec = some e)
    (hrun : PipelineCompiler.compile_shader st s spec = some (st', n)) :
    n = e.2 ∧
    (∀ q, shaderCacheOf st' q = shaderCacheOf st q) ∧
    st'.compile_log = st.compile_log ∧
    st'.shader_storage = st.shader_storage := by
  unfold PipelineCompiler.compile_shader at hrun
  dsimp only at hrun
  rw [hget] at hrun
  dsimp only at hrun
  rw [hfind] at hrun
  dsimp only at hrun
  cases hrun
  refine ⟨rfl, ?_, rfl, rfl⟩
  intro q
  unfold shaderCacheOf
  dsimp only
  rw [assocFind_insert]
  by_cases hq : s = q
  · subst hq
    rw [if_pos rfl]
    rfl
  · rw [if_neg hq]

/-- Claim C2: for every compilable (non-binary) shader and shader
specializations a and b that differ as sets of defines, resolving with a
and then with b yields two distinct fresh handles, each stored in the
shader's cache-entry list; resolving with a again returns the first
handle unchanged and does not invoke the compilation service again. -/
theorem claim2_shader_cache_soundness
    (st : CompilerState) (s : Nat) (a b : ShaderSpecialization) (src : String)
    (hget : st.shader_storage.get s = some { source := ShaderSource.Glsl src })
    (hcache : shaderCacheOf st s = [])
    (hne : a.eqv b = false) :
    ∃ st1 st2 st3 h1 h2,
      PipelineCompiler.compile_shader st s a = some (st1, h1) ∧
      PipelineCompiler.compile_shader st1 s b = some (st2, h2) ∧
      h1 = st.shader_storage.next_handle ∧
      h2 = st1.shader_storage.next_handle ∧
      h1 ≠ h2 ∧
      shaderCacheOf st2 s = [(a, h1), (b, h2)] ∧
      st2.compile_log = st.compile_log ++ [a.shader_defs, b.shader_defs] ∧
      PipelineCompiler.compile_shader st2 s a = some (st3, h1) ∧
      st3.compile_log = st2.compile_log := by
  obtain ⟨⟨st1, h1⟩, hrun1⟩ :=
    Option.isSome_iff_exists.mp (compile_shader_isSome st s a _ hget)
  have hfind1 : findCompiledShader (shaderCacheOf st s) a = none := by
    rw [hcache]; rfl
  obtain ⟨hh1, hc1, hcq1, hl1, hnh1, hgp1⟩ :=
    compile_shader_miss_spec st s a src st1 h1 hget hfind1 hrun1
  have hget1 : st1.shader_storage.get s =
      some { source := ShaderSource.Glsl src } := hgp1 s _ hget
  have hcache1 : shaderCacheOf st1 s = [(a, h1)] := by
    rw [hc1, hcache]; rfl
  have hfind2 : findCompiledShader (shaderCacheOf st1 s) b = none := by
    rw [hcache1]
    simp [findCompiledShader, hne]
  obtain ⟨⟨st2, h2⟩, hrun2⟩ :=
    Option.isSome_iff_exists.mp (compile_shader_isSome st1 s b _ hget1)
  obtain ⟨hh2, hc2, hcq2, hl2, hnh2, hgp2⟩ :=
    compile_shader_miss_spec st1 s b src st2 h2 hget1 hfind2 hrun2
  have hne12 : h1 ≠ h2 := by
    rw [hh1, hh2, hnh1]
    omega
  have hcache2 : shaderCacheOf st2 s = [(a, h1), (b, h2)] := by
    rw [hc2, hcache1]
    rfl
  have hlog2 : st2.compile_log = st.compile_log ++ [a.shader_defs, b.shader_defs] := by
    rw [hl2, hl1, List.append_assoc]
    rfl
  have hget2 : st2.shader_storage.get s =
      some { source := ShaderSource.Glsl src } := hgp2 s _ hget1
  have hfind3 : findCompiledShader (shaderCacheOf st2 s) a = some (a, h1) := by
    rw [hcache2]
    simp [findCompiledShader, seqv_refl]
  obtain ⟨⟨st3, h3⟩, hrun3⟩ :=
    Option.isSome_iff_exists.mp (compile_shader_isSome st2 s a _ hget2)
  obtain ⟨hh3, hcq3, hl3, hst3⟩ :=
    compile_shader_hit_spec st2 s a src (a, h1) st3 h3 hget2 hfind3 hrun3
  have hrun3' : PipelineCompiler.compile_shader st2 s a = some (st3, h1) := by
    rw [hrun3, hh3]
  exact ⟨st1, st2, st3, h1, h2, hrun1, hrun2, hh1, hh2, hne12, hcache2, hlog2,
    hrun3', hl3⟩

theorem claim2_witness :
    exState.shader_storage.get 0 = some { source := ShaderSource.Glsl "void main" } ∧
    shaderCacheOf exState 0 = [] ∧
    ShaderSpecialization.eqv exSpecA exSpecB = false ∧
    (∃ st1 st2 st3 h1 h2,
      PipelineCompiler.compile_shader exState 0 exSpecA = some (st1, h1) ∧
      PipelineCompiler.compile_shader st1 0 exSpecB = some (st2, h2) ∧
      h1 = exState.shader_storage.next_handle ∧
      h2 = st1.shader_storage.next_handle ∧
      h1 ≠ h2 ∧
      shaderCacheOf st2 0 = [(exSpecA, h1), (exSpecB, h2)] ∧
      st2.compile_log = exState.compile_log ++ [exSpecA.shader_defs, exSpecB.shader_defs] ∧
      PipelineCompiler.compile_shader st2 0 exSpecA = some (st3, h1) ∧
      st3.compile_log = st2.compile_log) :=
  ⟨rfl, rfl, by decide,
    claim2_shader_cache_soundness exState 0 exSpecA exSpecB "void main" rfl rfl (by decide)⟩

/-- Claim C3: for every shader whose source is already in final binary
(SPIR-V) form and every specialization, `compile_shader` returns the
shader's own input handle unchanged and never invokes the compilation
service (the log and the shader store are untouched). -/
theorem claim3_spirv_passthrough (st : CompilerState) (s : Nat)
    (spec : ShaderSpecialization) (l : ShaderLayout) (st' : CompilerState) (n : Nat)
    (hget : st.shader_storage.get s = some { source := ShaderSource.Spirv l })
    (hrun : PipelineCompiler.compile_shader st s spec = some (st', n)) :
    n = s ∧ st'.compile_log = st.compile_log ∧
    st'.shader_storage = st.shader_storage := by
  unfold PipelineCompiler.compile_shader at hrun
  dsimp only at hrun
  rw [hget] at hrun
  dsimp only at hrun
  cases hrun
  exact ⟨rfl, rfl, rfl⟩

theorem claim3_witness :
    exState.shader_storage.get 1 = some { source := ShaderSource.Spirv exSpirvLayout } ∧
    PipelineCompiler.compile_shader exState 1 exSpecAB =
      some (exSpirvCompiled.1, exSpirvCompiled.2) ∧
    (exSpirvCompiled.2 = 1 ∧ exSpirvCompiled.1.compile_log = exState.compile_log ∧
     exSpirvCompiled.1.shader_storage = exState.shader_storage) :=
  ⟨rfl, rfl,
    claim3_spirv_passthrough exState 1 exSpecAB exSpirvLayout
      exSpirvCompiled.1 exSpirvCompiled.2 rfl rfl⟩

/-- Claim C5 is false as stated: the specializations with stored define
order A, B and B, A are equal as define sets, yet `compile_shader`
passes the compilation service the two different ordered lists. -/
theorem claim5_counterexample :
    ShaderSpecialization.eqv exSpecAB exSpecBA = true ∧
    (PipelineCompiler.compile_shader exState 0 exSpecAB).map
      (fun r => r.1.compile_log) = some [["A", "B"]] ∧
    (PipelineCompiler.compile_shader exState 0 exSpecBA).map
      (fun r => r.1.compile_log) = some [["B", "A"]] ∧
    (["A", "B"] : List String) ≠ ["B", "A"] :=
  ⟨by decide, rfl, rfl, by decide⟩

/-- Claim C5 amended: on a cache miss the ordered define list passed to
the compilation service is exactly the specialization's stored define
list, in its stored (hash-set iteration) order — deterministic as a
function of the set's internal representation, but two representations
of the same set may be passed in different orders. -/
theorem claim5_amended_defines_order (st : CompilerState) (s : Nat)
    (spec : ShaderSpecialization) (src : String) (st' : CompilerState) (n : Nat)
    (hget : st.shader_storage.get s = some { source := ShaderSource.Glsl src })
    (hfind : findCompiledShader (shaderCacheOf st s) spec = none)
    (hrun : PipelineCompiler.compile_shader st s spec = some (st', n)) :
    st'.compile_log = st.compile_log ++ [spec.shader_defs] :=
  (compile_shader_miss_spec st s spec src st' n hget hfind hrun).2.2.2.1

theorem claim5_amended_witness :
    exState.shader_storage.get 0 = some { source := ShaderSource.Glsl "void main" } ∧
    findCompiledShader (shaderCacheOf exState 0) exSpecAB = none ∧
    PipelineCompiler.compile_shader exState 0 exSpecAB =
      some (exCompiledA.1, exCompiledA.2) ∧
    exCompiledA.1.compile_log = exState.compile_log ++ [exSpecAB.shader_defs] :=
  ⟨rfl, rfl, rfl,
    claim5_amended_defines_order exState 0 exSpecAB "void main"
      exCompiledA.1 exCompiledA.2 rfl rfl rfl⟩

/-- Claim C9 is false as stated: a non-uniform (sampler) binding whose
name matches a live dynamically-sized buffer is left unchanged by the
dynamic-binding loop — it is not marked dynamic.  Only uniform bindings
are marked (the `if let BindType::Uniform` guard at
pipeline_compiler.rs line 84). -/
theorem claim9_counterexample :
    exRraM.get "m" = some 3 ∧
    exCtxDyn.get_resource_info 3 =
      some (ResourceInfo.Buffer { is_dynamic := true }) ∧
    markLayoutDynamic exCtxDyn exRraM exSamplerLayout = exSamplerLayout ∧
    ((markLayoutDynamic exCtxDyn exRraM exSamplerLayout).bind_groups.map
      (fun g => g.bindings.map bindingIsDynamic)) = [[false]] :=
  ⟨rfl, rfl, rfl, rfl⟩

/-- Claim C9 amended: in the layout merge, every uniform binding of the
merged layout whose name matches a currently bound live resource whose
metadata reports a dynamically-sized buffer is marked dynamic in the
resulting layout; non-uniform bindings are left unchanged. -/
theorem claim9_amended_uniform_marked (ctx : RenderResourceContext)
    (rra : RenderResourceAssignments) (layout : PipelineLayout)
    (g : BindGroup) (b : Binding) (d : Bool) (rr : Nat) (info : BufferInfo)
    (hg : g ∈ layout.bind_groups) (hb : b ∈ g.bindings)
    (hu : b.bind_type = BindType.Uniform d)
    (hres : rra.get b.name = some rr)
    (hinfo : ctx.get_resource_info rr = some (ResourceInfo.Buffer info))
    (hdyn : info.is_dynamic = true) :
    ∃ g', g' ∈ (markLayoutDynamic ctx rra layout).bind_groups ∧
      ({ name := b.name, bind_type := BindType.Uniform true } : Binding) ∈ g'.bindings := by
  have hmark : markBindingDynamic ctx rra b =
      { name := b.name, bind_type := BindType.Uniform true } := by
    unfold markBindingDynamic
    rw [hres]
    dsimp only
    rw [hinfo]
    dsimp only
    rw [hu]
    dsimp only
    rw [hdyn]
  refine ⟨{ g with bindings := g.bindings.map (markBindingDynamic ctx rra) }, ?_, ?_⟩
  · unfold markLayoutDynamic
    dsimp only
    exact List.mem_map_of_mem _ hg
  · dsimp only
    rw [← hmark]
    exact List.mem_map_of_mem _ hb

theorem claim9_amended_witness :
    ({ index := 0, bindings := [exUniformBinding] } : BindGroup) ∈
      exUniformLayout.bind_groups ∧
    exUniformBinding ∈
      ({ index := 0, bindings := [exUniformBinding] } : BindGroup).bindings ∧
    exUniformBinding.bind_type = BindType.Uniform false ∧
    exRraM.get exUniformBinding.name = some 3 ∧
    exCtxDyn.get_resource_info 3 =
      some (ResourceInfo.Buffer { is_dynamic := true }) ∧
    (∃ g', g' ∈ (markLayoutDynamic exCtxDyn exRraM exUniformLayout).bind_groups ∧
      ({ name := exUniformBinding.name, bind_type := BindType.Uniform true } : Binding) ∈
        g'.bindings) :=
  ⟨List.mem_cons_self _ _, List.mem_cons_self _ _, rfl, rfl, rfl,
    claim9_amended_uniform_marked exCtxDyn exRraM exUniformLayout
      { index := 0, bindings := [exUniformBinding] } exUniformBinding false 3
      { is_dynamic := true } (List.mem_cons_self _ _) (List.mem_cons_self _ _)
      rfl rfl rfl rfl⟩

/-- Claim C8: an instanced renderable is skipped entirely by the frame
pass — processing it returns the state completely unchanged (no shader
or pipeline cache entry, no storage insertion, no assignment), and the
frame over a list beginning with it is the frame over the remainder with
the entity carried through untouched. -/
theorem claim8_instanced_skipped (vbd : VertexBufferDescriptors)
    (ctx : RenderResourceContext) (st : CompilerState) (r : Renderable)
    (rs : List Renderable) (hinst : r.is_instanced = true) :
    processRenderable vbd ctx st r = some (st, r) ∧
    update_shader_assignments vbd ctx st (r :: rs) =
      (update_shader_assignments vbd ctx st rs).map (fun p => (p.1, r :: p.2)) := by
  have hp : ∀ stx : CompilerState, processRenderable vbd ctx stx r = some (stx, r) := by
    intro stx
    unfold processRenderable
    rw [if_pos hinst]
  refine ⟨hp st, ?_⟩
  have hmatch : ∀ o : Option (CompilerState × List Renderable),
      (match o with
        | none => none
        | some (st2, rs2) => some (st2, r :: rs2)) =
        o.map (fun p => (p.1, r :: p.2)) := by
    intro o
    cases o with
    | none => rfl
    | some p => rfl
  unfold update_shader_assignments
  conv_lhs => rw [processRenderables]
  rw [hp _]
  exact hmatch (processRenderables vbd ctx { st with assignments := [] } rs)

theorem claim8_witness :
    exInstancedRenderable.is_instanced = true ∧
    processRenderable exVbd exCtx exState exInstancedRenderable =
      some (exState, exInstancedRenderable) ∧
    update_shader_assignments exVbd exCtx exState (exInstancedRenderable :: []) =
      (update_shader_assignments exVbd exCtx exState []).map
        (fun p => (p.1, exInstancedRenderable :: p.2)) :=
  ⟨rfl, (claim8_instanced_skipped exVbd exCtx exState exInstancedRenderable [] rfl).1,
    (claim8_instanced_skipped exVbd exCtx exState exInstancedRenderable [] rfl).2⟩

/-- Claim C4 is false as stated: a `NotFound` failure while resolving
the first entity's pipeline (handle 9 is absent from the pipeline store)
aborts the whole frame pass — the pass returns no assignment table at
all, so the second, healthy entity's resolution is not recorded — even
though the same healthy entity alone completes fine. -/
theorem claim4_counterexample :
    update_shader_assignments exVbd exCtx exState
      [exBadRenderable, exGoodRenderable] = none ∧
    (update_shader_assignments exVbd exCtx exState [exGoodRenderable]).isSome = true :=
  ⟨rfl, rfl⟩

/-- Claim C4 amended: a failure (Rust panic) while resolving one
entity's pipeline aborts the entire frame pass: the pass returns nothing
and no later entity's resolution is recorded; failures are not isolated
between entities. -/
theorem claim4_amended_failure_aborts_frame (vbd : VertexBufferDescriptors)
    (ctx : RenderResourceContext) (st : CompilerState) (r : Renderable)
    (rs : List Renderable)
    (hfail : processRenderable vbd ctx { st with assignments := [] } r = none) :
    update_shader_assignments vbd ctx st (r :: rs) = none := by
  unfold update_shader_assignments processRenderables
  rw [hfail]

theorem claim4_amended_witness :
    processRenderable exVbd exCtx { exState with assignments := [] } exBadRenderable =
      none ∧
    update_shader_assignments exVbd exCtx exState
      (exBadRenderable :: [exGoodRenderable]) = none :=
  ⟨rfl, claim4_amended_failure_aborts_frame exVbd exCtx exState exBadRenderable
    [exGoodRenderable] rfl⟩

theorem processRenderable_instanced (vbd : VertexBufferDescriptors)
    (ctx : RenderResourceContext) (st : CompilerState) (r : Renderable)
    (st1 : CompilerState) (r1 : Renderable)
    (hp : processRenderable vbd ctx st r = some (st1, r1))
    (hinst : r.is_instanced = true) : st1 = st ∧ r1 = r := by
  unfold processRenderable at hp
  rw [if_pos hinst] at hp
  cases hp
  exact ⟨rfl, rfl⟩

theorem processRenderable_live (vbd : VertexBufferDescriptors)
    (ctx : RenderResourceContext) (st : CompilerState) (r : Renderable)
    (st1 : CompilerState) (r1 : Renderable)
    (hp : processRenderable vbd ctx st r = some (st1, r1))
    (hinst : r.is_instanced = false) :
    r1 = clearShaderDefs r ∧
    PipelineCompiler.update_shader_assignments vbd ctx st r.pipelines
      r.render_resource_assignments = some st1 := by
  unfold processRenderable at hp
  rw [if_neg (by simp [hinst])] at hp
  rcases hm : PipelineCompiler.update_shader_assignments vbd ctx st r.pipelines
      r.render_resource_assignments with _ | stx
  · rw [hm] at hp
    exact absurd hp (by simp)
  · rw [hm] at hp
    dsimp only at hp
    cases hp
    exact ⟨rfl, rfl⟩

theorem processRenderables_pointwise (vbd : VertexBufferDescriptors)
    (ctx : RenderResourceContext) (rs : List Renderable) (st st2 : CompilerState)
    (rs2 : List Renderable)
    (hrun : processRenderables vbd ctx st rs = some (st2, rs2)) :
    rs2.length = rs.length ∧
    ∀ (i : Nat) (r : Renderable), rs[i]? = some r →
      (r.is_instanced = true → rs2[i]? = some r) ∧
      (r.is_instanced = false → rs2[i]? = some (clearShaderDefs r)) := by
  induction rs generalizing st rs2 with
  | nil =>
    unfold processRenderables at hrun
    cases hrun
    exact ⟨rfl, by intro i r hr; simp at hr⟩
  | cons r0 t ih =>
    unfold processRenderables at hrun
    rcases hp : processRenderable vbd ctx st r0 with _ | ⟨st1, r1⟩
    · rw [hp] at hrun
      exact absurd hrun (by simp)
    · rw [hp] at hrun
      dsimp only at hrun
      rcases ht : processRenderables vbd ctx st1 t with _ | ⟨st2x, rs2x⟩
      · rw [ht] at hrun
        exact absurd hrun (by simp)
      · rw [ht] at hrun
        dsimp only at hrun
        cases hrun
        obtain ⟨hlen, hpt⟩ := ih st1 _ ht
        refine ⟨by simp [hlen], ?_⟩
        intro i r hr
        cases i with
        | zero =>
          simp only [List.getElem?_cons_zero, Option.some.injEq] at hr
          subst hr
          constructor
          · intro hinst
            obtain ⟨hst, hr1⟩ := processRenderable_instanced vbd ctx st r0 st1 r1 hp hinst
            simp [hr1]
          · intro hinst
            obtain ⟨hr1, _⟩ := processRenderable_live vbd ctx st r0 st1 r1 hp hinst
            simp [hr1]
        | succ n =>
          simp only [List.getElem?_cons_succ] at hr
          have := hpt n r hr
          constructor
          · intro hinst
            simpa using this.1 hinst
          · intro hinst
            simpa using this.2 hinst

/-- Claim C10 (implicit): the frame pass leaves an instanced entity's
transient shader-define set unmodified — the entity comes out of the
pass exactly as it went in, so its defines persist into the next
frame. -/
theorem claim10_instanced_defines_persist (vbd : VertexBufferDescriptors)
    (ctx : RenderResourceContext) (st : CompilerState) (rs : List Renderable)
    (st' : CompilerState) (rs' : List Renderable)
    (hrun : update_shader_assignments vbd ctx st rs = some (st', rs')) :
    rs'.length = rs.length ∧
    ∀ (i : Nat) (r : Renderable), rs[i]? = some r → r.is_instanced = true →
      rs'[i]? = some r := by
  unfold update_shader_assignments at hrun
  obtain ⟨hlen, hpt⟩ := processRenderables_pointwise vbd ctx rs _ st' rs' hrun
  exact ⟨hlen, fun i r hr hinst => (hpt i r hr).1 hinst⟩

theorem claim10_witness :
    update_shader_assignments exVbd exCtx exState [exRenderable, exInstancedRenderable] =
      some (exFrameResult.1, exFrameResult.2) ∧
    (exFrameResult.2.length = [exRenderable, exInstancedRenderable].length ∧
     ∀ (i : Nat) (r : Renderable), [exRenderable, exInstancedRenderable][i]? = some r →
       r.is_instanced = true → exFrameResult.2[i]? = some r) :=
  ⟨rfl, claim10_instanced_defines_persist exVbd exCtx exState
    [exRenderable, exInstancedRenderable] exFrameResult.1 exFrameResult.2 rfl⟩

/-- Claim C7: after a frame's pass completes, every processed
(non-instanced) entity in the output carries an empty transient
shader-define set, whatever the size and content of its define set
entering the frame. -/
theorem claim7_transient_reset (vbd : VertexBufferDescriptors)
    (ctx : RenderResourceContext) (st : CompilerState) (rs : List Renderable)
    (st' : CompilerState) (rs' : List Renderable)
    (hrun : update_shader_assignments vbd ctx st rs = some (st', rs')) :
    ∀ r' ∈ rs', r'.is_instanced = false →
      r'.render_resource_assignments.pipeline_specialization.shader_specialization.shader_defs
        = [] := by
  unfold update_shader_assignments at hrun
  obtain ⟨hlen, hpt⟩ := processRenderables_pointwise vbd ctx rs _ st' rs' hrun
  intro r' hmem hninst
  obtain ⟨i, hi, hget⟩ := List.mem_iff_getElem.mp hmem
  have hgets : rs'[i]? = some r' := by
    rw [List.getElem?_eq_getElem hi, hget]
  have hilt : i < rs.length := by
    rw [← hlen]
    exact hi
  obtain ⟨r, hr⟩ : ∃ r, rs[i]? = some r :=
    ⟨rs[i], List.getElem?_eq_getElem hilt⟩
  have hcase := hpt i r hr
  cases hinst : r.is_instanced with
  | true =>
    have := hcase.1 hinst
    rw [hgets] at this
    cases this
    rw [hinst] at hninst
    exact absurd hninst (by simp)
  | false =>
    have := hcase.2 hinst
    rw [hgets] at this
    cases this
    rfl

theorem claim7_witness :
    update_shader_assignments exVbd exCtx exState [exRenderable, exInstancedRenderable] =
      some (exFrameResult.1, exFrameResult.2) ∧
    (∀ r' ∈ exFrameResult.2, r'.is_instanced = false →
      r'.render_resource_assignments.pipeline_specialization.shader_specialization.shader_defs
        = []) :=
  ⟨rfl, claim7_transient_reset exVbd exCtx exState
    [exRenderable, exInstancedRenderable] exFrameResult.1 exFrameResult.2 rfl⟩

theorem idInTable_push (st : CompilerState) (hh x y : Nat)
    (h : idInTable (pushAssignment st hh x).assignments y) :
    idInTable st.assignments y ∨ y = x := by
  obtain ⟨e, he, hy⟩ := h
  unfold pushAssignment at he
  dsimp only at he
  rcases mem_assocInsert he with rfl | hmem
  · rw [List.mem_append] at hy
    rcases hy with hy | hy
    · left
      cases hf : assocFind st.assignments hh with
      | none =>
        rw [hf] at hy
        simp at hy
      | some ids0 =>
        rw [hf] at hy
        exact ⟨(hh, ids0), assocFind_mem hf, hy⟩
    · right
      simpa using hy
  · left
    exact ⟨e, hmem, hy⟩

theorem resolve_pipeline_ids (vbd : VertexBufferDescriptors)
    (ctx : RenderResourceContext) (st : CompilerState) (p : Nat)
    (rra : RenderResourceAssignments) (st' : CompilerState) (h : Nat)
    (hres : PipelineCompiler.resolve_pipeline vbd ctx st p rra = some (st', h))
    (y : Nat) (hy : idInTable st'.assignments y) :
    idInTable st.assignments y ∨ y = rra.id := by
  unfold PipelineCompiler.resolve_pipeline at hres
  dsimp only at hres
  split at hres
  · cases hres
    exact idInTable_push _ _ _ _ hy
  · split at hres
    · exact absurd hres (by simp)
    · split at hres
      · exact absurd hres (by simp)
      · rename_i st2 cp heqc
        cases hres
        have hf := compile_pipeline_frame _ _ _ _ _ _ _ heqc
        rcases idInTable_push _ _ _ _ hy with h' | h'
        · left
          have : st2.assignments = st.assignments := hf.2.2
          rw [show ({ st2 with pipeline_storage :=
            (st2.pipeline_storage.add cp).1 } : CompilerState).assignments =
              st2.assignments from rfl] at h'
          rw [this] at h'
          exact h'
        · right
          exact h'

theorem update_assignments_ids (vbd : VertexBufferDescriptors)
    (ctx : RenderResourceContext) (pipelines : List Nat)
    (st : CompilerState) (rra : RenderResourceAssignments) (st' : CompilerState)
    (hrun : PipelineCompiler.update_shader_assignments vbd ctx st pipelines rra =
      some st')
    (y : Nat) (hy : idInTable st'.assignments y) :
    idInTable st.assignments y ∨ y = rra.id := by
  induction pipelines generalizing st with
  | nil =>
    unfold PipelineCompiler.update_shader_assignments at hrun
    cases hrun
    left
    exact hy
  | cons p ps ih =>
    unfold PipelineCompiler.update_shader_assignments at hrun
    rcases hstep : PipelineCompiler.resolve_pipeline vbd ctx st p rra with _ | ⟨st1, h1⟩
    · rw [hstep] at hrun
      exact absurd hrun (by simp)
    · rw [hstep] at hrun
      dsimp only at hrun
      rcases ih st1 hrun with h' | h'
      · exact resolve_pipeline_ids vbd ctx st p rra st1 h1 hstep y h'
      · right
        exact h'

theorem processRenderable_ids (vbd : VertexBufferDescriptors)
    (ctx : RenderResourceContext) (st : CompilerState) (r : Renderable)
    (st1 : CompilerState) (r1 : Renderable)
    (hp : processRenderable vbd ctx st r = some (st1, r1))
    (y : Nat) (hy : idInTable st1.assignments y) :
    idInTable st.assignments y ∨
      (r.is_instanced = false ∧ y = r.render_resource_assignments.id) := by
  cases hinst : r.is_instanced with
  | true =>
    obtain ⟨hst, _⟩ := processRenderable_instanced vbd ctx st r st1 r1 hp hinst
    left
    rw [← hst]
    exact hy
  | false =>
    obtain ⟨_, hm⟩ := processRenderable_live vbd ctx st r st1 r1 hp hinst
    rcases update_assignments_ids vbd ctx r.pipelines st
        r.render_resource_assignments st1 hm y hy with h' | h'
    · left
      exact h'
    · right
      exact ⟨rfl, h'⟩

theorem processRenderables_ids (vbd : VertexBufferDescriptors)
    (ctx : RenderResourceContext) (rs : List Renderable) (st st2 : CompilerState)
    (rs2 : List Renderable)
    (hrun : processRenderables vbd ctx st rs = some (st2, rs2))
    (y : Nat) (hy : idInTable st2.assignments y) :
    idInTable st.assignments y ∨
      ∃ r ∈ rs, r.is_instanced = false ∧ y = r.render_resource_assignments.id := by
  induction rs generalizing st rs2 with
  | nil =>
    unfold processRenderables at hrun
    cases hrun
    left
    exact hy
  | cons r0 t ih =>
    unfold processRenderables at hrun
    rcases hp : processRenderable vbd ctx st r0 with _ | ⟨st1, r1⟩
    · rw [hp] at hrun
      exact absurd hrun (by simp)
    · rw [hp] at hrun
      dsimp only at hrun
      rcases ht : processRenderables vbd ctx st1 t with _ | ⟨st2x, rs2x⟩
      · rw [ht] at hrun
        exact absurd hrun (by simp)
      · rw [ht] at hrun
        dsimp only at hrun
        cases hrun
        rcases ih st1 _ ht with h' | h'
        · rcases processRenderable_ids vbd ctx st r0 st1 r1 hp y h' with h'' | h''
          · left
            exact h''
          · right
            exact ⟨r0, List.mem_cons_self _ _, h''⟩
        · right
          obtain ⟨r, hmem, hr⟩ := h'
          exact ⟨r, List.mem_cons_of_mem _ hmem, hr⟩

/-- Claim C6: the assignment table is rebuilt from empty at the start of
every frame pass — the pass result is independent of whatever table the
state carried in, and after the pass every identifier in the table comes
from a non-instanced entity processed in this very frame. -/
theorem claim6_frame_isolation (vbd : VertexBufferDescriptors)
    (ctx : RenderResourceContext) (st : CompilerState) (rs : List Renderable)
    (st' : CompilerState) (rs' : List Renderable)
    (hrun : update_shader_assignments vbd ctx st rs = some (st', rs')) :
    (∀ a, update_shader_assignments vbd ctx { st with assignments := a } rs =
      some (st', rs')) ∧
    (∀ y, idInTable st'.assignments y →
      ∃ r ∈ rs, r.is_instanced = false ∧ y = r.render_resource_assignments.id) := by
  constructor
  · intro a
    exact hrun
  · intro y hy
    unfold update_shader_assignments at hrun
    rcases processRenderables_ids vbd ctx rs _ st' rs' hrun y hy with h' | h'
    · obtain ⟨e, he, _⟩ := h'
      exact absurd he (by simp)
    · exact h'

theorem claim6_witness :
    update_shader_assignments exVbd exCtx exStateDirty
      [exRenderable, exInstancedRenderable] = some (exFrameDirty.1, exFrameDirty.2) ∧
    (∀ a, update_shader_assignments exVbd exCtx { exStateDirty with assignments := a }
      [exRenderable, exInstancedRenderable] = some (exFrameDirty.1, exFrameDirty.2)) ∧
    (∀ y, idInTable exFrameDirty.1.assignments y →
      ∃ r ∈ [exRenderable, exInstancedRenderable],
        r.is_instanced = false ∧ y = r.render_resource_assignments.id) :=
  ⟨rfl,
    (claim6_frame_isolation exVbd exCtx exStateDirty
      [exRenderable, exInstancedRenderable] exFrameDirty.1 exFrameDirty.2 rfl).1,
    (claim6_frame_isolation exVbd exCtx exStateDirty
      [exRenderable, exInstancedRenderable] exFrameDirty.1 exFrameDirty.2 rfl).2⟩
